import Mathlib

/-!
Shallow embedding of the scheduling core of
`MasterTemple/scripture_retention_algorithm` (`src/main.rs`).

Calendar dates (`chrono::NaiveDate`) are modelled as integer day numbers,
with day `0` taken to be a Sunday.  Subtracting two `NaiveDate`s yields a
whole number of days, and `chrono::TimeDelta::num_weeks` divides that day
count by 7 with truncation toward zero (`Int.tdiv`).  Machine integers
(`i64`, `usize`) are modelled as `Int` / `Nat`; none of the arithmetic in
the core approaches overflow.  The Rust `%` operator on `i64` is the
truncating remainder, `Int.tmod`.
-/

/-- One iteration of the loop in `split_into_n_parts` (`src/main.rs` lines 18-23):
iteration `i` pushes the slice `vec[start..start + base + extra]` where
`extra = 1` exactly when `i < remainder`.  The first argument of the match is
the number of remaining iterations (`n - i`). -/
def split_go (vec : List α) (base rem : Nat) : Nat → Nat → Nat → List (List α)
  | 0, _, _ => []
  | k+1, i, start =>
    (vec.drop start).take (base + if i < rem then 1 else 0) ::
      split_go vec base rem k (i+1) (start + base + (if i < rem then 1 else 0))

/-- `fn split_into_n_parts<T: Clone>(vec: Vec<T>, n: usize) -> Vec<Vec<T>>`
(`src/main.rs` lines 10-26): `base = len / n`, `remainder = len % n`, then the
loop above starting at `i = 0`, `start = 0`. -/
def split_into_n_parts (vec : List α) (n : Nat) : List (List α) :=
  split_go vec (vec.length / n) (vec.length % n) n 0 0

/-- `enum Frequency` (`src/main.rs` lines 131-138). -/
inductive Frequency where
  | NotStarted
  | Daily
  | Weekly
  | Monthly
  | Done
deriving DecidableEq

/-- `Frequency::new(weeks_in: i64)` (`src/main.rs` lines 140-154). -/
def Frequency.new (weeks_in : Int) : Frequency :=
  if weeks_in < 0 then Frequency.NotStarted
  else if weeks_in < 7 then Frequency.Daily
  else if weeks_in < 7 + 28 then Frequency.Weekly
  else if weeks_in < 7 + 28 + 336 then Frequency.Monthly
  else Frequency.Done

/-- `struct Verse` (`src/main.rs` lines 80-84); the `Cow<'a, String>` label is
modelled as a plain string (the spec notes the borrow is not load-bearing). -/
structure Verse where
  weeks_in : Int
  reference : String
deriving DecidableEq

/-- `Verse::frequency` (`src/main.rs` lines 87-89). -/
def Verse.frequency (v : Verse) : Frequency :=
  Frequency.new v.weeks_in

/-- `Verse::with_offset` (`src/main.rs` lines 95-99): clone with `weeks_in += weeks`. -/
def Verse.with_offset (v : Verse) (weeks : Int) : Verse :=
  { v with weeks_in := v.weeks_in + weeks }

/-- `Verse::is_daily` (`src/main.rs` lines 101-103). -/
def Verse.is_daily (v : Verse) : Bool :=
  v.frequency == Frequency.Daily

/-- `Verse::is_weekly` (`src/main.rs` lines 105-107). -/
def Verse.is_weekly (v : Verse) : Bool :=
  v.frequency == Frequency.Weekly

/-- `Verse::is_monthly_week` (`src/main.rs` lines 122-126):
monthly frequency and `weeks_in % 4 == n` (Rust `%` on `i64` truncates, `Int.tmod`). -/
def Verse.is_monthly_week (v : Verse) (n : Int) : Bool :=
  (v.frequency == Frequency.Monthly) && (v.weeks_in.tmod 4 == n)

/-- `struct VerseEntry` (`src/main.rs` lines 28-32), with the parsed
`NaiveDate` as a day number. -/
structure VerseEntry where
  date : Int
  reference : String
deriving DecidableEq

/-- `VerseEntry::weeks_in` (`src/main.rs` lines 43-45):
`(today - self.date).num_weeks()`.  The day difference is exact and
`num_weeks` is truncating division by 7. -/
def VerseEntry.weeks_in (e : VerseEntry) (today : Int) : Int :=
  (today - e.date).tdiv 7

/-- `VerseEntry::frequency` (`src/main.rs` lines 47-49). -/
def VerseEntry.frequency (e : VerseEntry) (today : Int) : Frequency :=
  Frequency.new (e.weeks_in today)

/-- `VerseEntry::calculate_relative` (`src/main.rs` lines 51-57). -/
def VerseEntry.calculate_relative (e : VerseEntry) (today : Int) : Verse :=
  { weeks_in := e.weeks_in today, reference := e.reference }

/-- `struct VersesForADay` (`src/main.rs` lines 156-161). -/
structure VersesForADay where
  daily : List Verse
  weekly : List Verse
  monthly : List Verse
deriving DecidableEq

/-- `struct VersesForAWeek` (`src/main.rs` lines 163-166). -/
structure VersesForAWeek where
  days : List VersesForADay
deriving DecidableEq

/-- `VersesForAWeek::new` (`src/main.rs` lines 168-198): filter the daily,
weekly and monthly subsets, split weekly and monthly into 7 parts, and zip the
parts into the 7 day buckets, each sharing the full daily list. -/
def VersesForAWeek.new (verses : List Verse) (n : Int) : VersesForAWeek :=
  let daily := verses.filter (fun verse => verse.is_daily)
  let weekly := verses.filter (fun verse => verse.is_weekly)
  let monthly := verses.filter (fun verse => verse.is_monthly_week n)
  let weeklyParts := split_into_n_parts weekly 7
  let monthlyParts := split_into_n_parts monthly 7
  let days := (weeklyParts.zip monthlyParts).map
    (fun wm => { daily := daily, weekly := wm.1, monthly := wm.2 })
  { days := days }

/-- `struct VersesForAMonth` (`src/main.rs` lines 200-203). -/
structure VersesForAMonth where
  weeks : List VersesForAWeek
deriving DecidableEq

/-- `VersesForAMonth::new` (`src/main.rs` lines 205-215): for `n` in `0..=3`,
offset every verse by `n` weeks and build the week plan with that same `n`. -/
def VersesForAMonth.new (verses : List Verse) : VersesForAMonth :=
  { weeks := (List.range 4).map
      (fun (n : Nat) => VersesForAWeek.new (verses.map (fun v => v.with_offset (n : Int))) (n : Int)) }

/-- An empty day bucket (all three tier lists empty). -/
def emptyDay : VersesForADay :=
  { daily := [], weekly := [], monthly := [] }

/-- An empty week plan (no day buckets). -/
def emptyWeek : VersesForAWeek :=
  { days := [] }

/-- The week plan at cycle-week index `k` of the month plan built over `verses`. -/
def monthWeekAt (verses : List Verse) (k : Nat) : VersesForAWeek :=
  (VersesForAMonth.new verses).weeks.getD k emptyWeek

/-- The monthly pool of a week plan: concatenation of the `monthly` lists of
its day buckets (the items the week distributes over its 7 days). -/
def weekMonthlyPool (w : VersesForAWeek) : List Verse :=
  (w.days.map VersesForADay.monthly).flatten

/-- The weekly pool of a week plan: concatenation of the `weekly` lists of its
day buckets. -/
def weekWeeklyPool (w : VersesForAWeek) : List Verse :=
  (w.days.map VersesForADay.weekly).flatten

/-- The list of group sizes `split_into_n_parts` produces: from loop index `i`
on, with the given number of remaining groups, each size is `base` plus one
extra while `i < rem`. -/
def groupSizes (base rem : Nat) : Nat → Nat → List Nat
  | 0, _ => []
  | k+1, i => (base + if i < rem then 1 else 0) :: groupSizes base rem k (i+1)

/-- Rust slice indexing `vec[start..stop]` with its panic condition made
explicit: `none` unless `start <= stop <= vec.len()`. -/
def checkedSlice (vec : List α) (start stop : Nat) : Option (List α) :=
  if start ≤ stop ∧ stop ≤ vec.length then some ((vec.drop start).take (stop - start)) else none

/-- `split_go` with every slice access checked. -/
def split_go_checked (vec : List α) (base rem : Nat) : Nat → Nat → Nat → Option (List (List α))
  | 0, _, _ => some []
  | k+1, i, start =>
    match checkedSlice vec start (start + base + (if i < rem then 1 else 0)) with
    | none => none
    | some piece =>
      match split_go_checked vec base rem k (i+1) (start + base + (if i < rem then 1 else 0)) with
      | none => none
      | some rest => some (piece :: rest)

/-- `split_into_n_parts` with its panic conditions made explicit: division by
`n = 0` and out-of-bounds slices yield `none`. -/
def split_into_n_parts_checked (vec : List α) (n : Nat) : Option (List (List α)) :=
  if n = 0 then none
  else split_go_checked vec (vec.length / n) (vec.length % n) n 0 0

/-- `VersesForAWeek::new` with the partitioner calls checked. -/
def VersesForAWeek.new_checked (verses : List Verse) (n : Int) : Option VersesForAWeek :=
  let daily := verses.filter (fun verse => verse.is_daily)
  let weekly := verses.filter (fun verse => verse.is_weekly)
  let monthly := verses.filter (fun verse => verse.is_monthly_week n)
  match split_into_n_parts_checked weekly 7 with
  | none => none
  | some weeklyParts =>
    match split_into_n_parts_checked monthly 7 with
    | none => none
    | some monthlyParts =>
      some ⟨(weeklyParts.zip monthlyParts).map
        (fun wm => { daily := daily, weekly := wm.1, monthly := wm.2 })⟩

/-- `VersesForAMonth::new` with the partitioner calls checked. -/
def VersesForAMonth.new_checked (verses : List Verse) : Option VersesForAMonth :=
  match (List.range 4).mapM
      (fun (n : Nat) =>
        VersesForAWeek.new_checked (verses.map (fun v => v.with_offset (n : Int))) (n : Int)) with
  | none => none
  | some weeks => some { weeks := weeks }

/-- Modelled from the spec: the repository source under `src/` contains no
weekday computation (the ScheduleResolver of spec §4.4 is absent from
`src/main.rs`).  With dates as day numbers anchored so that day `0` is a
Sunday, the weekday numbered `0=Sunday .. 6=Saturday` is the nonnegative
residue of the day number mod 7. -/
def weekday (today : Int) : Nat :=
  (today % 7).toNat

/-- Modelled from the spec: `current_week_offset(reference_items, reference_date)`
of §4.4 is absent from `src/main.rs`.  Following the spec's words: take the
first item's age in weeks relative to the reference date; if negative the
offset is 0; otherwise it is `age_weeks mod 4`. -/
def current_week_offset (items : List VerseEntry) (today : Int) : Int :=
  match items with
  | [] => 0
  | e :: _ => if e.weeks_in today < 0 then 0 else (e.weeks_in today) % 4

/-- Modelled from the spec: `for_date` of §4.4 is absent from `src/main.rs`.
Following the spec's words: age every item, build the month plan, select the
week at `current_week_offset`, then the day bucket at the reference date's
weekday, falling back to an empty bucket if an index is out of range. -/
def for_date (items : List VerseEntry) (today : Int) : VersesForADay :=
  let verses := items.map (fun e => e.calculate_relative today)
  let offset := current_week_offset items today
  let month := VersesForAMonth.new verses
  ((month.weeks.getD offset.toNat emptyWeek).days).getD (weekday today) emptyDay

/-- The monthly pool as the spec's words describe it (§4.3 step 3), stated for
comparison with the implementation: candidates are the items that are monthly
now or monthly after advancing by the cycle week, cut into 4 contiguous blocks
of size `⌊count/4⌋` (items beyond the 4 full blocks dropped), and block
`cycle_week` is selected. -/
def specMonthlyPool (verses : List Verse) (k : Nat) : List Verse :=
  let candidates := verses.filter
    (fun v => (v.frequency == Frequency.Monthly)
      || ((v.with_offset (k : Int)).frequency == Frequency.Monthly))
  let blockSize := candidates.length / 4
  (candidates.drop (k * blockSize)).take blockSize

/-- The end-to-end scenario of spec §8: 300 items, each introduced 280 days
(40 whole weeks) before the reference date, aged at that reference date. -/
def monthlyScenario : List Verse :=
  (List.replicate 300 { date := -280, reference := "a" : VerseEntry }).map
    (fun e => e.calculate_relative 0)

/-! Helper lemmas about the partitioner. -/

/-- Taking `m + n` elements is taking `m`, then `n` more from the rest. -/
theorem take_add_split (l : List α) (m n : Nat) :
    l.take (m + n) = l.take m ++ (l.drop m).take n := by
  induction m generalizing l with
  | zero => simp
  | succ m ih =>
    cases l with
    | nil => simp
    | cons a l => simp [Nat.succ_add, ih]

/-- The split loop always produces exactly as many groups as it has iterations left. -/
theorem split_go_length (vec : List α) (base rem k i start : Nat) :
    (split_go vec base rem k i start).length = k := by
  induction k generalizing i start with
  | zero => rfl
  | succ k ih => simp [split_go, ih]

/-- Closed form for the sum of the group sizes from loop index `i` on. -/
theorem groupSizes_sum (base rem k i : Nat) :
    (groupSizes base rem k i).sum = k * base + (min rem (i + k) - min rem i) := by
  induction k generalizing i with
  | zero => simp [groupSizes]
  | succ k ih =>
    simp only [groupSizes, List.sum_cons, ih (i + 1)]
    rw [Nat.succ_mul]
    by_cases h : i < rem
    · rw [if_pos h]
      omega
    · rw [if_neg h]
      omega

/-- Every group size is `base` or `base + 1`. -/
theorem groupSizes_all (base rem k i : Nat) :
    (groupSizes base rem k i).all (fun s => s == base || s == base + 1) = true := by
  induction k generalizing i with
  | zero => rfl
  | succ k ih =>
    simp only [groupSizes, List.all_cons, ih, Bool.and_true]
    by_cases h : i < rem
    · simp [h]
    · simp [h]

/-- Concatenating the groups from loop state `(i, start)` on yields the slice of
the input from `start` of length the remaining sizes' sum. -/
theorem split_go_flatten (vec : List α) (base rem k i start : Nat) :
    (split_go vec base rem k i start).flatten
      = (vec.drop start).take ((groupSizes base rem k i).sum) := by
  induction k generalizing i start with
  | zero => simp [split_go, groupSizes]
  | succ k ih =>
    simp only [split_go, groupSizes, List.flatten_cons, List.sum_cons, ih]
    rw [take_add_split (vec.drop start) (base + if i < rem then 1 else 0)
          ((groupSizes base rem k (i+1)).sum)]
    rw [List.drop_drop]
    rw [show start + (base + if i < rem then 1 else 0)
          = start + base + (if i < rem then 1 else 0) by omega]

/-- Concatenating all groups of `split_into_n_parts` restores the input (for `n ≠ 0`). -/
theorem split_flatten (vec : List α) (n : Nat) (hn : n ≠ 0) :
    (split_into_n_parts vec n).flatten = vec := by
  rw [split_into_n_parts, split_go_flatten, groupSizes_sum]
  have h1 : vec.length % n < n := Nat.mod_lt _ (Nat.pos_of_ne_zero hn)
  have h2 : n * (vec.length / n) + vec.length % n = vec.length := Nat.div_add_mod _ _
  have h3 : n * (vec.length / n) = (vec.length / n) * n := Nat.mul_comm _ _
  rw [show n * (vec.length / n) + (min (vec.length % n) (0 + n) - min (vec.length % n) 0)
        = vec.length by omega]
  simp

/-- The group lengths produced by the split loop are exactly `groupSizes`, as
long as the remaining sizes fit inside the input. -/
theorem split_go_map_length (vec : List α) (base rem k i start : Nat)
    (h : start + (groupSizes base rem k i).sum ≤ vec.length) :
    (split_go vec base rem k i start).map List.length = groupSizes base rem k i := by
  induction k generalizing i start with
  | zero => rfl
  | succ k ih =>
    simp only [split_go, groupSizes, List.map_cons, List.cons.injEq]
    simp only [groupSizes, List.sum_cons] at h
    constructor
    · rw [List.length_take, List.length_drop]
      omega
    · exact ih (i + 1) (start + base + (if i < rem then 1 else 0)) (by omega)

/-- The group lengths of `split_into_n_parts` (for `n ≠ 0`). -/
theorem split_map_length (vec : List α) (n : Nat) (hn : n ≠ 0) :
    (split_into_n_parts vec n).map List.length
      = groupSizes (vec.length / n) (vec.length % n) n 0 := by
  rw [split_into_n_parts]
  apply split_go_map_length
  rw [groupSizes_sum]
  have h1 : vec.length % n < n := Nat.mod_lt _ (Nat.pos_of_ne_zero hn)
  have h2 : n * (vec.length / n) + vec.length % n = vec.length := Nat.div_add_mod _ _
  have h3 : n * (vec.length / n) = (vec.length / n) * n := Nat.mul_comm _ _
  omega

/-- The checked split loop succeeds whenever the remaining sizes fit inside the
input, and then agrees with the unchecked loop. -/
theorem split_go_checked_eq (vec : List α) (base rem k i start : Nat)
    (h : start + (groupSizes base rem k i).sum ≤ vec.length) :
    split_go_checked vec base rem k i start = some (split_go vec base rem k i start) := by
  induction k generalizing i start with
  | zero => rfl
  | succ k ih =>
    simp only [groupSizes, List.sum_cons] at h
    rw [split_go_checked, split_go]
    rw [checkedSlice, if_pos (by omega)]
    rw [ih (i + 1) (start + base + (if i < rem then 1 else 0)) (by omega)]
    rw [show start + base + (if i < rem then 1 else 0) - start
          = base + (if i < rem then 1 else 0) by omega]

/-- For `n ≠ 0` the checked partitioner never hits a panic condition. -/
theorem split_checked_eq (vec : List α) (n : Nat) (hn : n ≠ 0) :
    split_into_n_parts_checked vec n = some (split_into_n_parts vec n) := by
  rw [split_into_n_parts_checked, if_neg hn, split_into_n_parts]
  apply split_go_checked_eq
  rw [groupSizes_sum]
  have h1 : vec.length % n < n := Nat.mod_lt _ (Nat.pos_of_ne_zero hn)
  have h2 : n * (vec.length / n) + vec.length % n = vec.length := Nat.div_add_mod _ _
  have h3 : n * (vec.length / n) = (vec.length / n) * n := Nat.mul_comm _ _
  omega

/-! Helper lemmas about truncating division by 7 and about the week plans. -/

/-- Truncating division by 7 expressed through euclidean division. -/
theorem tdiv_seven_char (d : Int) : d.tdiv 7 = if 0 ≤ d then d / 7 else -((-d) / 7) := by
  by_cases h : 0 ≤ d
  · rw [if_pos h]
    exact Int.tdiv_eq_ediv h (by norm_num)
  · rw [if_neg h]
    rw [show d.tdiv 7 = -((-d).tdiv 7) by rw [Int.neg_tdiv]; ring]
    rw [Int.tdiv_eq_ediv (by omega) (by norm_num)]

/-- Truncating division by 7 is floor division plus a correction of 1 on
negative non-multiples of 7. -/
theorem tdiv_seven_fdiv (d : Int) :
    d.tdiv 7 = d.fdiv 7 + (if 0 ≤ d ∨ d % 7 = 0 then 0 else 1) := by
  have hf : d.fdiv 7 = d / 7 := Int.fdiv_eq_ediv d (by norm_num)
  rw [tdiv_seven_char, hf]
  by_cases h : 0 ≤ d
  · rw [if_pos h, if_pos (Or.inl h)]
    omega
  · rw [if_neg h]
    by_cases hd : d % 7 = 0
    · rw [if_pos (Or.inr hd)]
      omega
    · rw [if_neg (by omega)]
      omega

/-- Truncating division by 7 is negative exactly on inputs at or below `-7`. -/
theorem tdiv_seven_neg_iff (d : Int) : d.tdiv 7 < 0 ↔ d ≤ -7 := by
  rw [tdiv_seven_char]
  by_cases h : 0 ≤ d
  · rw [if_pos h]
    omega
  · rw [if_neg h]
    omega

/-- Projecting `weekly` out of the zipped day buckets returns the weekly parts. -/
theorem zipDays_map_weekly (d : List Verse) (w m : List (List Verse)) (h : w.length = m.length) :
    ((w.zip m).map (fun wm => VersesForADay.mk d wm.1 wm.2)).map VersesForADay.weekly = w := by
  induction w generalizing m with
  | nil => simp
  | cons a w ih =>
    cases m with
    | nil => simp at h
    | cons b m =>
      simp only [List.zip_cons_cons, List.map_cons]
      rw [ih m (by simpa using h)]

/-- Projecting `monthly` out of the zipped day buckets returns the monthly parts. -/
theorem zipDays_map_monthly (d : List Verse) (w m : List (List Verse)) (h : w.length = m.length) :
    ((w.zip m).map (fun wm => VersesForADay.mk d wm.1 wm.2)).map VersesForADay.monthly = m := by
  induction w generalizing m with
  | nil =>
    cases m with
    | nil => simp
    | cons b m => simp at h
  | cons a w ih =>
    cases m with
    | nil => simp at h
    | cons b m =>
      simp only [List.zip_cons_cons, List.map_cons]
      rw [ih m (by simpa using h)]

/-- Projecting `daily` out of the zipped day buckets gives the shared daily list
once per bucket. -/
theorem zipDays_map_daily (d : List Verse) (w m : List (List Verse)) :
    ((w.zip m).map (fun wm => VersesForADay.mk d wm.1 wm.2)).map VersesForADay.daily
      = List.replicate (w.zip m).length d := by
  induction w generalizing m with
  | nil => simp
  | cons a w ih =>
    cases m with
    | nil => simp
    | cons b m =>
      simp only [List.zip_cons_cons, List.map_cons, List.length_cons, List.replicate_succ]
      rw [ih m]

/-- A week plan always has exactly 7 day buckets. -/
theorem week_days_length (verses : List Verse) (n : Int) :
    (VersesForAWeek.new verses n).days.length = 7 := by
  rw [VersesForAWeek.new]
  simp only [List.length_map, List.length_zip, split_into_n_parts, split_go_length,
    Nat.min_self]

/-- The 7 day buckets of a week plan share one identical daily list: the
verses whose (already offset) frequency is daily. -/
theorem week_daily_replicate (verses : List Verse) (n : Int) :
    (VersesForAWeek.new verses n).days.map VersesForADay.daily
      = List.replicate 7 (verses.filter (fun verse => verse.is_daily)) := by
  rw [VersesForAWeek.new]
  simp only []
  rw [zipDays_map_daily]
  congr 1

/-- The weekly lists of the 7 day buckets concatenate to the weekly filter of
the week's input verses. -/
theorem week_weekly_flatten (verses : List Verse) (n : Int) :
    weekWeeklyPool (VersesForAWeek.new verses n)
      = verses.filter (fun verse => verse.is_weekly) := by
  rw [weekWeeklyPool, VersesForAWeek.new]
  simp only []
  rw [zipDays_map_weekly _ _ _ (by simp [split_into_n_parts, split_go_length])]
  exact split_flatten _ 7 (by norm_num)

/-- The monthly lists of the 7 day buckets concatenate to the
`is_monthly_week` filter of the week's input verses. -/
theorem week_monthly_flatten (verses : List Verse) (n : Int) :
    weekMonthlyPool (VersesForAWeek.new verses n)
      = verses.filter (fun verse => verse.is_monthly_week n) := by
  rw [weekMonthlyPool, VersesForAWeek.new]
  simp only []
  rw [zipDays_map_monthly _ _ _ (by simp [split_into_n_parts, split_go_length])]
  exact split_flatten _ 7 (by norm_num)

/-- Week `k` of the month plan (`k < 4`) is the week plan built over the
verses offset by `k` weeks, with cycle-week argument `k`. -/
theorem monthWeekAt_eq (verses : List Verse) (k : Nat) (h : k < 4) :
    monthWeekAt verses k
      = VersesForAWeek.new (verses.map (fun v => v.with_offset (k : Int))) (k : Int) := by
  interval_cases k <;> rfl

/-- The checked week construction never hits a panic condition and agrees with
the unchecked one. -/
theorem week_checked_eq (verses : List Verse) (n : Int) :
    VersesForAWeek.new_checked verses n = some (VersesForAWeek.new verses n) := by
  rw [VersesForAWeek.new_checked, VersesForAWeek.new]
  simp only [split_checked_eq _ 7 (by norm_num)]

/-- The checked month construction never hits a panic condition and agrees
with the unchecked one. -/
theorem month_checked_eq (verses : List Verse) :
    VersesForAMonth.new_checked verses = some (VersesForAMonth.new verses) := by
  rw [VersesForAMonth.new_checked, VersesForAMonth.new]
  rw [show List.range 4 = [0, 1, 2, 3] from rfl]
  simp [List.mapM, List.mapM.loop, week_checked_eq]

/-- Sum of all group sizes of a full split of a length-`l` list into `n` groups. -/
theorem groupSizes_sum_top (l n : Nat) (hn : n ≠ 0) :
    (groupSizes (l / n) (l % n) n 0).sum = l := by
  rw [groupSizes_sum]
  have h1 : l % n < n := Nat.mod_lt _ (Nat.pos_of_ne_zero hn)
  have h2 : n * (l / n) + l % n = l := Nat.div_add_mod _ _
  have h3 : n * (l / n) = (l / n) * n := Nat.mul_comm _ _
  omega

/-! Claim theorems. -/

/-- C5: `Frequency::new` classifies ages exactly by the spec's intervals:
negative ages are `NotStarted`, `[0,6]` `Daily`, `[7,34]` `Weekly`,
`[35,370]` `Monthly`, and `≥ 371` `Done`; the boundary pairs `6/7`, `34/35`
and `370/371` fall on opposite sides exactly.  The function is pure and total
by construction (it is a Lean function with no error outcome). -/
theorem C5_classify_intervals (w : Int) :
    Frequency.new w
      = (if w < 0 then Frequency.NotStarted
        else if w ≤ 6 then Frequency.Daily
        else if w ≤ 34 then Frequency.Weekly
        else if w ≤ 370 then Frequency.Monthly
        else Frequency.Done)
    ∧ Frequency.new 6 = Frequency.Daily ∧ Frequency.new 7 = Frequency.Weekly
    ∧ Frequency.new 34 = Frequency.Weekly ∧ Frequency.new 35 = Frequency.Monthly
    ∧ Frequency.new 370 = Frequency.Monthly ∧ Frequency.new 371 = Frequency.Done := by
  refine ⟨?_, by decide, by decide, by decide, by decide, by decide, by decide⟩
  rw [Frequency.new]
  split_ifs <;> first | rfl | (exfalso; omega)

/-- C6: for positive `n`, `split_into_n_parts` returns exactly `n` groups whose
sizes follow `groupSizes` (group `i` has size `base + 1` for `i < len mod n`,
else `base = len div n`), the sizes sum to the input length, every size is
`base` or `base + 1`, concatenating the groups in order restores the input
exactly, and the empty input split 7 ways gives 7 empty groups. -/
theorem C6_partitioner (vec : List α) (n : Nat) (h : 0 < n) :
    (split_into_n_parts vec n).length = n
    ∧ (split_into_n_parts vec n).map List.length
        = groupSizes (vec.length / n) (vec.length % n) n 0
    ∧ ((split_into_n_parts vec n).map List.length).sum = vec.length
    ∧ (split_into_n_parts vec n).flatten = vec
    ∧ ((split_into_n_parts vec n).map List.length).all
        (fun s => s == vec.length / n || s == vec.length / n + 1) = true
    ∧ split_into_n_parts ([] : List α) 7 = List.replicate 7 [] := by
  have hn : n ≠ 0 := by omega
  refine ⟨split_go_length vec _ _ n 0 0, split_map_length vec n hn, ?_,
    split_flatten vec n hn, ?_, by with_unfolding_all rfl⟩
  · rw [split_map_length vec n hn, groupSizes_sum_top _ _ hn]
  · rw [split_map_length vec n hn]
    exact groupSizes_all _ _ _ _

/-- Witness for C6 at the concrete input `[1, 2, 3]` split into 2 groups. -/
theorem C6_partitioner_witness :
    0 < 2 ∧ ((split_into_n_parts ([1, 2, 3] : List Nat) 2).length = 2
      ∧ (split_into_n_parts ([1, 2, 3] : List Nat) 2).map List.length
          = groupSizes (([1, 2, 3] : List Nat).length / 2) (([1, 2, 3] : List Nat).length % 2) 2 0
      ∧ ((split_into_n_parts ([1, 2, 3] : List Nat) 2).map List.length).sum
          = ([1, 2, 3] : List Nat).length
      ∧ (split_into_n_parts ([1, 2, 3] : List Nat) 2).flatten = [1, 2, 3]
      ∧ ((split_into_n_parts ([1, 2, 3] : List Nat) 2).map List.length).all
          (fun s => s == ([1, 2, 3] : List Nat).length / 2
            || s == ([1, 2, 3] : List Nat).length / 2 + 1) = true
      ∧ split_into_n_parts ([] : List Nat) 7 = List.replicate 7 []) :=
  ⟨by decide, C6_partitioner ([1, 2, 3] : List Nat) 2 (by decide)⟩

/-- C8: every week plan has exactly 7 day buckets, the `daily` list is
identical (same items, same order) across all 7 buckets, and an empty input
produces 7 buckets whose tier lists are all empty (present, not missing). -/
theorem C8_week_shape (verses : List Verse) (n : Int) :
    (VersesForAWeek.new verses n).days.length = 7
    ∧ (VersesForAWeek.new verses n).days.map VersesForADay.daily
        = List.replicate 7 (verses.filter (fun verse => verse.is_daily))
    ∧ (VersesForAWeek.new [] n).days = List.replicate 7 emptyDay :=
  ⟨week_days_length verses n, week_daily_replicate verses n, by with_unfolding_all rfl⟩

/-- C10: building a week plan or the month plan never hits a runtime error:
the checked constructions, in which division by zero and every slice taken by
the partitioner are guarded, always succeed and agree with the unchecked
ones (the partitioner is only ever called with the nonzero constant 7). -/
theorem C10_no_runtime_error (verses : List Verse) (n : Int) :
    VersesForAWeek.new_checked verses n = some (VersesForAWeek.new verses n)
    ∧ VersesForAMonth.new_checked verses = some (VersesForAMonth.new verses) :=
  ⟨week_checked_eq verses n, month_checked_eq verses⟩

/-- Counterexample to C1: for the single verse of age 40 weeks (monthly tier)
and cycle-week 0, the implementation's monthly pool is the whole candidate
set, whereas the spec's 4-block division (block size `⌊1/4⌋ = 0`) would make
every pool empty. -/
theorem C1_counterexample :
    weekMonthlyPool (monthWeekAt [{ weeks_in := 40, reference := "a" }] 0)
      ≠ specMonthlyPool [{ weeks_in := 40, reference := "a" }] 0 := by
  decide

/-- C1 (amended): the monthly pool of the week plan for cycle-week `k` is not
a 4-block division; it is the filter of the offset verses by
`is_monthly_week k`: the verses whose offset age has monthly frequency and
whose offset age leaves remainder `k` modulo 4 (truncating remainder). -/
theorem C1_monthly_pool (verses : List Verse) (k : Nat) (h : k < 4) :
    weekMonthlyPool (monthWeekAt verses k)
      = (verses.map (fun v => v.with_offset (k : Int))).filter
          (fun verse => verse.is_monthly_week (k : Int)) := by
  rw [monthWeekAt_eq verses k h, week_monthly_flatten]

/-- Witness for C1 at cycle-week 1 over a single verse of age 40 weeks. -/
theorem C1_monthly_pool_witness :
    1 < 4 ∧ weekMonthlyPool (monthWeekAt [{ weeks_in := 40, reference := "a" }] 1)
      = (([{ weeks_in := 40, reference := "a" }] : List Verse).map
          (fun v => v.with_offset (1 : Int))).filter
          (fun verse => verse.is_monthly_week (1 : Int)) :=
  ⟨by decide, C1_monthly_pool [{ weeks_in := 40, reference := "a" }] 1 (by decide)⟩

/-- Counterexample to C3: for the single verse of age 6 weeks (daily now,
weekly next week), the daily list of cycle-week 1 is empty rather than the
current-tier daily filter, and the daily lists of cycle-weeks 0 and 1 differ. -/
theorem C3_counterexample :
    (monthWeekAt [{ weeks_in := 6, reference := "a" }] 1).days.map VersesForADay.daily
        ≠ List.replicate 7 (([{ weeks_in := 6, reference := "a" }] : List Verse).filter
            (fun verse => verse.is_daily))
    ∧ (monthWeekAt [{ weeks_in := 6, reference := "a" }] 0).days.map VersesForADay.daily
        ≠ (monthWeekAt [{ weeks_in := 6, reference := "a" }] 1).days.map VersesForADay.daily := by
  constructor
  · decide
  · decide

/-- C3 (amended): the daily list shared by the 7 day buckets of cycle-week `k`
is the filter of the verses offset by `k` weeks whose offset frequency is
daily — membership follows the offset age, not the current age, so it can
change from week to week of the cycle. -/
theorem C3_daily_offset (verses : List Verse) (k : Nat) (h : k < 4) :
    (monthWeekAt verses k).days.map VersesForADay.daily
      = List.replicate 7 ((verses.map (fun v => v.with_offset (k : Int))).filter
          (fun verse => verse.is_daily)) := by
  rw [monthWeekAt_eq verses k h, week_daily_replicate]

/-- Witness for C3 at cycle-week 1 over a single verse of age 6 weeks. -/
theorem C3_daily_offset_witness :
    1 < 4 ∧ (monthWeekAt [{ weeks_in := 6, reference := "a" }] 1).days.map VersesForADay.daily
      = List.replicate 7 ((([{ weeks_in := 6, reference := "a" }] : List Verse).map
          (fun v => v.with_offset (1 : Int))).filter (fun verse => verse.is_daily)) :=
  ⟨by decide, C3_daily_offset [{ weeks_in := 6, reference := "a" }] 1 (by decide)⟩

/-- C7: the weekly items of cycle-week `k` are exactly the verses whose
frequency after advancing the age by `k` weeks is weekly (membership is
decided by the offset age), and the concatenation of the `weekly` lists of
the 7 day buckets is exactly that weekly set, with no duplicates and no
omissions (list equality). -/
theorem C7_weekly_pool (verses : List Verse) (k : Nat) (h : k < 4) :
    weekWeeklyPool (monthWeekAt verses k)
      = (verses.map (fun v => v.with_offset (k : Int))).filter
          (fun verse => verse.is_weekly) := by
  rw [monthWeekAt_eq verses k h, week_weekly_flatten]

/-- Witness for C7 at cycle-week 0 over one weekly and one daily verse. -/
theorem C7_weekly_pool_witness :
    0 < 4 ∧ weekWeeklyPool (monthWeekAt
        [{ weeks_in := 10, reference := "a" }, { weeks_in := 2, reference := "b" }] 0)
      = (([{ weeks_in := 10, reference := "a" },
            { weeks_in := 2, reference := "b" }] : List Verse).map
          (fun v => v.with_offset (0 : Int))).filter (fun verse => verse.is_weekly) :=
  ⟨by decide, C7_weekly_pool
    [{ weeks_in := 10, reference := "a" }, { weeks_in := 2, reference := "b" }] 0 (by decide)⟩

/-- Counterexample to C4: for an item introduced 3 days after the reference
date, the code computes `weeks_in = 0` (truncation toward zero), while floor
division of the elapsed days by 7 gives `-1`; in particular the age is not
negative although the reference date strictly precedes the introduction date
by a non-multiple of 7 days. -/
theorem C4_counterexample :
    VerseEntry.weeks_in { date := 3, reference := "a" } 0 = 0
    ∧ Int.fdiv ((0 : Int) - 3) 7 = -1 := by
  decide

/-- C4 (amended): the derived age in weeks is the truncated (toward zero)
division of the elapsed days by 7: it exceeds the floor by exactly 1 on
negative non-multiples of 7, and it is negative only when the reference date
is at least 7 days before the introduction date. -/
theorem C4_weeks_in_truncates (e : VerseEntry) (today : Int) :
    e.weeks_in today
      = (today - e.date).fdiv 7
        + (if 0 ≤ today - e.date ∨ (today - e.date) % 7 = 0 then 0 else 1)
    ∧ (e.weeks_in today < 0 ↔ today - e.date ≤ -7) := by
  rw [VerseEntry.weeks_in]
  exact ⟨tdiv_seven_fdiv _, tdiv_seven_neg_iff _⟩

set_option maxRecDepth 100000 in
/-- Counterexample to C2: in the spec's end-to-end scenario (300 items all
introduced exactly 40 weeks before the reference date) the monthly pool of
cycle-week 0 does not contain `⌊300/4⌋ = 75` items — it contains all 300. -/
theorem C2_counterexample :
    ¬ (weekMonthlyPool (monthWeekAt monthlyScenario 0)).length = 75 := by
  decide

set_option maxRecDepth 1000000 in
/-- C2 (amended): in the end-to-end scenario of 300 items all introduced
exactly 40 weeks before the reference date, every cycle-week's monthly pool
contains all 300 items (every item appears in all four pools, so the pools
are not disjoint), and each pool is partitioned over the 7 days with group
sizes `[43, 43, 43, 43, 43, 43, 42]` (sizes in {42, 43}, not {10, 11}). -/
theorem C2_scenario :
    weekMonthlyPool (monthWeekAt monthlyScenario 0)
        = List.replicate 300 { weeks_in := 40, reference := "a" }
    ∧ weekMonthlyPool (monthWeekAt monthlyScenario 1)
        = List.replicate 300 { weeks_in := 41, reference := "a" }
    ∧ weekMonthlyPool (monthWeekAt monthlyScenario 2)
        = List.replicate 300 { weeks_in := 42, reference := "a" }
    ∧ weekMonthlyPool (monthWeekAt monthlyScenario 3)
        = List.replicate 300 { weeks_in := 43, reference := "a" }
    ∧ (monthWeekAt monthlyScenario 0).days.map (fun d => d.monthly.length)
        = [43, 43, 43, 43, 43, 43, 42]
    ∧ (monthWeekAt monthlyScenario 1).days.map (fun d => d.monthly.length)
        = [43, 43, 43, 43, 43, 43, 42]
    ∧ (monthWeekAt monthlyScenario 2).days.map (fun d => d.monthly.length)
        = [43, 43, 43, 43, 43, 43, 42]
    ∧ (monthWeekAt monthlyScenario 3).days.map (fun d => d.monthly.length)
        = [43, 43, 43, 43, 43, 43, 42] := by
  refine ⟨by decide, by decide, by decide, by decide, by decide, by decide, by decide, by decide⟩

/-- C9 (`spec-modelled`): for a nonempty item list, `current_week_offset`
stays in `[0, 3]`, is computed from the first item's age (0 when that age is
negative, and since the age is the truncated week count it is also 0 whenever
the reference date precedes the first item's introduction date), and
`for_date` selects the week at that offset from the month plan over the aged
items and the day bucket at the reference date's weekday (0=Sunday ..
6=Saturday, always below 7); both selected indices are in range, so the
empty-bucket fallback is never needed, and indexing is by `getD` with an
empty default rather than a failure. -/
theorem C9_resolver (e : VerseEntry) (rest : List VerseEntry) (today : Int) :
    0 ≤ current_week_offset (e :: rest) today
    ∧ current_week_offset (e :: rest) today ≤ 3
    ∧ current_week_offset (e :: rest) today
        = (if e.weeks_in today < 0 then 0 else (e.weeks_in today) % 4)
    ∧ (if today < e.date then current_week_offset (e :: rest) today else 0) = 0
    ∧ (VersesForAMonth.new ((e :: rest).map
        (fun x => x.calculate_relative today))).weeks.length = 4
    ∧ weekday today < 7
    ∧ ((VersesForAMonth.new ((e :: rest).map
          (fun x => x.calculate_relative today))).weeks.getD
        (current_week_offset (e :: rest) today).toNat emptyWeek).days.length = 7
    ∧ for_date (e :: rest) today
      = (((VersesForAMonth.new ((e :: rest).map
            (fun x => x.calculate_relative today))).weeks.getD
          (current_week_offset (e :: rest) today).toNat emptyWeek).days).getD
          (weekday today) emptyDay := by
  have hoff : current_week_offset (e :: rest) today
      = if e.weeks_in today < 0 then 0 else (e.weeks_in today) % 4 := rfl
  have hb0 : 0 ≤ current_week_offset (e :: rest) today := by
    rw [hoff]
    split_ifs with h
    · norm_num
    · omega
  have hb3 : current_week_offset (e :: rest) today ≤ 3 := by
    rw [hoff]
    split_ifs with h
    · norm_num
    · omega
  have hpre : (if today < e.date then current_week_offset (e :: rest) today else 0) = 0 := by
    split_ifs with hlt
    · rw [hoff, VerseEntry.weeks_in]
      have hc := tdiv_seven_char (today - e.date)
      rw [if_neg (by omega)] at hc
      rw [hc]
      split_ifs with hneg
      · rfl
      · omega
    · rfl
  have hlen : (VersesForAMonth.new ((e :: rest).map
      (fun x => x.calculate_relative today))).weeks.length = 4 := by
    rw [VersesForAMonth.new]
    simp
  have hwd : weekday today < 7 := by
    rw [weekday]
    omega
  have ht : (current_week_offset (e :: rest) today).toNat < 4 := by omega
  have hdays : ((VersesForAMonth.new ((e :: rest).map
        (fun x => x.calculate_relative today))).weeks.getD
      (current_week_offset (e :: rest) today).toNat emptyWeek).days.length = 7 := by
    have hw := monthWeekAt_eq ((e :: rest).map (fun x => x.calculate_relative today))
      (current_week_offset (e :: rest) today).toNat ht
    rw [monthWeekAt] at hw
    rw [hw, week_days_length]
  exact ⟨hb0, hb3, hoff, hpre, hlen, hwd, hdays, rfl⟩
